import Mathlib


/-! Verification development for the audio/summarization core of the
meeting-minutes desktop recorder (Tauri frontend, Rust sources under
`src/frontend/src-tauri/src/`).

The Rust sources are shallowly embedded:
* pure string/text functions from `summary/processor.rs` become Lean
  functions over `List Char` (Rust iterates `chars()`; the few byte-indexed
  slices in the sources land on ASCII boundaries, so the char-level view is
  exact);
* `u64` counters become `Nat` with explicit `% 2 ^ 64` at each wrapping
  increment;
* `f32` sample conversion becomes exact rational arithmetic `ℚ`, with the
  one value-changing `as f32` cast (`i32::MAX as f32`, which rounds to
  `2 ^ 31`) made explicit;
* the opaque DSP kernels (mixer, VAD, resampler, RNNoise, high-pass,
  normalizer — out of scope per the design document) are parameters of the
  embedding, so every theorem about the pipeline holds for any behaviour of
  those kernels;
* fallible calls (`Result`) become `Option`, `None` standing for `Err`.
-/


namespace MeetingMinutes

/-! ## Summarizer data model (`summary/llm_client.rs`) -/

/-- The five LLM providers of `llm_client.rs` (`enum LLMProvider`). -/
inductive LLMProvider where
  | OpenAI
  | Claude
  | Groq
  | Ollama
  | OpenRouter
deriving DecidableEq, Repr

/-! ## `summary/processor.rs` -/

/-- Embeds `rough_token_count`: `(s.chars().count() as f64 / 4.0).ceil() as usize`.
The `f64` arithmetic is exact for every realistic length (`< 2 ^ 53`), and
`⌈n / 4⌉ = (n + 3) / 4` in natural division. -/
def rough_token_count (s : List Char) : Nat :=
  (s.length + 3) / 4

/-- The strategy branch of `generate_meeting_summary`
(`processor.rs:307`): single pass iff
`provider != &LLMProvider::Ollama || total_tokens < token_threshold`,
with `total_tokens = rough_token_count(text)`. -/
def usesSinglePass (provider : LLMProvider) (text : List Char)
    (token_threshold : Nat) : Bool :=
  provider != LLMProvider.Ollama || rough_token_count text < token_threshold

/-- Spec-side notion used by the claim: the cloud providers are OpenAI,
Claude, Groq and OpenRouter. -/
def isCloudProvider (provider : LLMProvider) : Bool :=
  match provider with
  | .OpenAI => true
  | .Claude => true
  | .Groq => true
  | .OpenRouter => true
  | .Ollama => false

/-! ### `chunk_text` (`processor.rs:57`)

`chunk_text` collects the text into `Vec<char>` and slides a window of
`chunk_size_tokens * 4` characters with step
`chunk_size_chars.saturating_sub(overlap_chars).max(1)`, pulling each
window end back to the nearest whitespace strictly above the window start. -/

/-- The backward whitespace walk of `chunk_text`
(`while boundary > current_pos && !chars[boundary].is_whitespace()`).
Out-of-range reads never happen in the source (the initial index is in
range); `getD` with a non-whitespace default keeps the function total. -/
def walkBack (chars : List Char) (current_pos : Nat) : Nat → Nat
  | b =>
    if h : current_pos < b ∧ ¬ (chars.getD b 'x').isWhitespace then
      walkBack chars current_pos (b - 1)
    else
      b
termination_by b => b
decreasing_by
  omega

/-- Step of the sliding window: `(chunk_size_chars - overlap_chars).max(1)`. -/
def chunkStep (chunk_size_chars overlap_chars : Nat) : Nat :=
  max (chunk_size_chars - overlap_chars) 1

/-- One iteration of the `while current_pos < total_chars` loop of
`chunk_text`: compute the nominal end, pull it back to a whitespace
boundary when the window does not reach the end of the text, push the
slice, and advance by the step. -/
def chunkLoop (chars : List Char) (chunk_size_chars overlap_chars : Nat)
    (current_pos : Nat) : List (List Char) :=
  if h : current_pos < chars.length then
    let nominal := min (current_pos + chunk_size_chars) chars.length
    let end_pos :=
      if nominal < chars.length then
        let boundary := walkBack chars current_pos nominal
        if current_pos < boundary then boundary else nominal
      else nominal
    let chunk := ((chars.drop current_pos).take (end_pos - current_pos))
    if end_pos = chars.length then
      [chunk]
    else
      chunk :: chunkLoop chars chunk_size_chars overlap_chars
        (current_pos + chunkStep chunk_size_chars overlap_chars)
  else
    []
termination_by chars.length - current_pos
decreasing_by
  have : 1 ≤ chunkStep chunk_size_chars overlap_chars := by
    simp [chunkStep]
  omega

/-- Embeds `chunk_text(text, chunk_size_tokens, overlap_tokens)` from
`processor.rs:57`. -/
def chunk_text (text : List Char) (chunk_size_tokens overlap_tokens : Nat) :
    List (List Char) :=
  if text.isEmpty || chunk_size_tokens = 0 then
    []
  else
    let chunk_size_chars := chunk_size_tokens * 4
    let overlap_chars := overlap_tokens * 4
    if text.length ≤ chunk_size_chars then
      [text]
    else
      chunkLoop text chunk_size_chars overlap_chars 0

/-! ### Analysis helpers for `chunk_text` -/

/-- The contiguous slice `chars[a..b]` of a char vector. -/
def slice (chars : List Char) (a b : Nat) : List Char :=
  (chars.drop a).take (b - a)

/-- The end position the loop body of `chunk_text` computes for the window
starting at `p` (nominal end, pulled back to a whitespace boundary when the
window does not reach the end of the text). -/
def chunkEnd (chars : List Char) (chunk_size_chars p : Nat) : Nat :=
  let nominal := min (p + chunk_size_chars) chars.length
  if nominal < chars.length then
    let boundary := walkBack chars p nominal
    if p < boundary then boundary else nominal
  else nominal

/-- A block of characters dropped at a chunk boundary: either empty, or a
single whitespace character followed by non-whitespace characters (the
fragment of a word cut off by the backward boundary walk). -/
def isBoundaryGap (g : List Char) : Bool :=
  match g with
  | [] => true
  | c :: t => c.isWhitespace && t.all (fun x => !x.isWhitespace)

/-- Interleave chunks with the gaps dropped between them. -/
def interleave : List (List Char) → List (List Char) → List Char
  | [], _ => []
  | c :: cs, [] => c ++ interleave cs []
  | c :: cs, g :: gs => c ++ (g ++ interleave cs gs)

/-- The sharing relation between adjacent chunks: whenever the left chunk
has the full window length and the right chunk is at least as long as the
overlap, the left chunk's last `O` characters are the right chunk's first
`O` characters. -/
def shareRel (C O : Nat) (c₁ c₂ : List Char) : Prop :=
  c₁.length = C → O ≤ c₂.length → c₁.drop (C - O) = c₂.take O

/-- The strategy trace of `generate_meeting_summary`
(`processor.rs:284-321`): either a single pass over the full text, or the
multi-level path that chunks the text with window `token_threshold - 300`
and overlap `100`. -/
inductive SummaryPlan where
  | singlePass (content : List Char)
  | multiLevel (chunks : List (List Char))
deriving DecidableEq

/-- Which strategy `generate_meeting_summary` selects and what it feeds it
(`processor.rs:307-321`). -/
def summaryPlan (provider : LLMProvider) (text : List Char)
    (token_threshold : Nat) : SummaryPlan :=
  if provider != LLMProvider.Ollama ||
      rough_token_count text < token_threshold then
    SummaryPlan.singlePass text
  else
    SummaryPlan.multiLevel (chunk_text text (token_threshold - 300) 100)

/-! ### `clean_llm_markdown_output` (`processor.rs:162`)

The regex `(?s)<think(?:ing)?>.*?</think(?:ing)?>` with `replace_all` is
embedded by its leftmost, lazy matching semantics: scan left to right for
an opening tag; on an opening tag, lazily scan for the nearest closing tag;
if one exists the whole match is deleted and scanning resumes after it,
otherwise scanning advances one character. -/

/-- Substring test: does `pat` occur inside `l`? -/
def containsSub (pat : List Char) : List Char → Bool
  | [] => pat.isPrefixOf []
  | c :: rest => pat.isPrefixOf (c :: rest) || containsSub pat rest

/-- Opening-tag match at the current position (greedy `(?:ing)?`):
`<thinking>` is preferred over `<think>`; returns the rest of the input. -/
def matchThinkOpen (l : List Char) : Option (List Char) :=
  if "<thinking>".toList.isPrefixOf l then some (l.drop 10)
  else if "<think>".toList.isPrefixOf l then some (l.drop 7)
  else none

/-- Lazy scan for the nearest closing tag (greedy `(?:ing)?`): returns the
rest of the input after the closing tag, if any closing tag occurs. -/
def findThinkClose : List Char → Option (List Char)
  | [] => none
  | c :: rest =>
    if "</thinking>".toList.isPrefixOf (c :: rest) then
      some ((c :: rest).drop 11)
    else if "</think>".toList.isPrefixOf (c :: rest) then
      some ((c :: rest).drop 8)
    else findThinkClose rest

/-- Embeds `re.replace_all(markdown, "")` for the thinking-block regex. -/
def removeThink (l : List Char) : List Char :=
  match l with
  | [] => []
  | c :: rest =>
    match hopen : matchThinkOpen (c :: rest) with
    | some after =>
      match hclose : findThinkClose after with
      | some rem => removeThink rem
      | none => c :: removeThink rest
    | none => c :: removeThink rest
termination_by l.length
decreasing_by
  · have hfc : ∀ (a b : List Char), findThinkClose a = some b →
        b.length < a.length := by
      intro a
      induction a with
      | nil =>
        intro b hb
        simp [findThinkClose] at hb
      | cons c0 rest0 ih =>
        intro b hb
        rw [findThinkClose] at hb
        split at hb
        · next hp =>
          have hle := (List.isPrefixOf_iff_prefix.mp hp).length_le
          simp only [Option.some.injEq] at hb
          rw [← hb]
          simp at hle ⊢
          omega
        · split at hb
          · next hp =>
            have hle := (List.isPrefixOf_iff_prefix.mp hp).length_le
            simp only [Option.some.injEq] at hb
            rw [← hb]
            simp at hle ⊢
            omega
          · have := ih b hb
            simp
            omega
    have hmo : ∀ (a b : List Char), matchThinkOpen a = some b →
        b.length ≤ a.length := by
      intro a b hb
      rw [matchThinkOpen] at hb
      split at hb
      · simp only [Option.some.injEq] at hb
        rw [← hb]
        simp
      · split at hb
        · simp only [Option.some.injEq] at hb
          rw [← hb]
          simp
        · simp at hb
    have h1 := hfc after rem hclose
    have h2 := hmo _ after hopen
    simp at h2 ⊢
    omega
  · simp
  · simp

/-- Embeds `str::trim`: drop Unicode whitespace from both ends. -/
def trimList (l : List Char) : List Char :=
  (l.dropWhile Char.isWhitespace).rdropWhile Char.isWhitespace

/-- Embeds `clean_llm_markdown_output` (`processor.rs:162`): remove thinking
blocks, trim, then strip a surrounding code fence
(markdown-tagged or plain) and trim again. The byte-indexed Rust slice
`trimmed[prefix.len()..trimmed.len() - 3]` falls on ASCII fence
boundaries, hence equals the char-level `slice`. -/
def clean_llm_markdown_output (markdown : List Char) : List Char :=
  let without_thinking := removeThink markdown
  let trimmed := trimList without_thinking
  if "```markdown\n".toList.isPrefixOf trimmed &&
      "```".toList.isSuffixOf trimmed then
    trimList (slice trimmed 12 (trimmed.length - 3))
  else if "```\n".toList.isPrefixOf trimmed &&
      "```".toList.isSuffixOf trimmed then
    trimList (slice trimmed 4 (trimmed.length - 3))
  else trimmed

/-- Fence-wrapped test used to state the amended idempotence claim. -/
def fenceWrapped (t : List Char) : Bool :=
  ("```markdown\n".toList.isPrefixOf t && "```".toList.isSuffixOf t) ||
    ("```\n".toList.isPrefixOf t && "```".toList.isSuffixOf t)

/-! ### Meeting-name extraction and title stripping
(`processor.rs:192`, `service.rs:218-248`) -/

/-- Embeds `str::trim_start_matches(pat)`: repeatedly strip a leading occurrence
of the (non-empty) pattern. -/
def trimStartMatches (pat l : List Char) : List Char :=
  if !pat.isEmpty && pat.isPrefixOf l then
    trimStartMatches pat (l.drop pat.length)
  else l
termination_by l.length
decreasing_by
  next h =>
    rw [Bool.and_eq_true] at h
    have h1 := (List.isPrefixOf_iff_prefix.mp h.2).length_le
    have h2 : pat.length ≠ 0 := by
      simpa [List.isEmpty_iff, List.length_eq_zero] using h.1
    simp
    omega

/-- Embeds `str::lines`: split at `'\n'`, also consuming a `'\r'` that
immediately precedes a `'\n'`; a final line without a line ending is kept
as is, a trailing line ending produces no extra empty line. -/
def rustLines (l : List Char) : List (List Char) :=
  let parts := l.splitOn '\n'
  let stripCR : List Char → List Char := fun s =>
    if s.getLast? = some '\r' then s.dropLast else s
  parts.dropLast.map stripCR ++ (parts.getLast?.toList.filter
    (fun s => !s.isEmpty))

/-- Embeds `extract_meeting_name_from_markdown` (`processor.rs:192`): the first
line starting with `"# "`, with every leading `"# "` stripped and the
result trimmed. -/
def extract_meeting_name_from_markdown (markdown : List Char) :
    Option (List Char) :=
  ((rustLines markdown).find? (fun line => "# ".toList.isPrefixOf line)).map
    (fun line => trimList (trimStartMatches "# ".toList line))

/-- The title-stripping step of
`SummaryService::process_transcript_background` (`service.rs:233-246`):
find the first `'#'` character, cut everything up to the end of the line
containing it, and `trim_start` the remainder; with no `'#'` the string is
cleared. -/
def stripTitleLine (final_markdown : List Char) : List Char :=
  match final_markdown.findIdx? (fun c => c == '#') with
  | none => []
  | some hash_pos =>
    let body_start :=
      match (final_markdown.drop hash_pos).findIdx? (fun c => c == '\n') with
      | some line_end => hash_pos + line_end
      | none => final_markdown.length
    (final_markdown.drop body_start).dropWhile Char.isWhitespace

/-- The markdown body the service persists (`service.rs:218-248`): when a
non-empty meeting name is extracted the title-stripping step runs,
otherwise the markdown is stored unchanged. -/
def persistedBody (final_markdown : List Char) : List Char :=
  match extract_meeting_name_from_markdown final_markdown with
  | some name =>
    if !name.isEmpty then stripTitleLine final_markdown else final_markdown
  | none => final_markdown

/-! ### Stream-error classification
(`AudioCapture::handle_stream_error`, `pipeline.rs:478-505`) -/

/-- The audio error taxonomy (`recording_state.rs`, used throughout
`pipeline.rs`). -/
inductive AudioError where
  | DeviceDisconnected
  | PermissionDenied
  | ChannelClosed
  | BufferOverflow
  | StreamFailed
  | ProcessingFailed
deriving DecidableEq, Repr

/-- Embeds `str::to_lowercase`, character-wise; it agrees with Rust on the ASCII
error messages classified here. -/
def toLowerList (l : List Char) : List Char := l.map Char.toLower

/-- Embeds `AudioCapture::handle_stream_error` (`pipeline.rs:478`): classify the
lowercased message by substring tests, in source order. -/
def handle_stream_error (error : List Char) : AudioError :=
  let error_str := toLowerList error
  if containsSub "device is no longer available".toList error_str
      || containsSub "device not found".toList error_str
      || containsSub "device disconnected".toList error_str
      || containsSub "no such device".toList error_str
      || containsSub "device unavailable".toList error_str
      || containsSub "device removed".toList error_str then
    AudioError.DeviceDisconnected
  else if containsSub "permission".toList error_str
      || containsSub "access denied".toList error_str then
    AudioError.PermissionDenied
  else if containsSub "channel closed".toList error_str then
    AudioError.ChannelClosed
  else if containsSub "stream".toList error_str
      && containsSub "failed".toList error_str then
    AudioError.StreamFailed
  else
    AudioError.StreamFailed

/-- The device-disconnect message substrings the code actually tests: each
is device-prefixed (`"device not found"`, not `"not found"`). -/
def deviceGonePatterns : List (List Char) :=
  ["device is no longer available".toList, "device not found".toList,
    "device disconnected".toList, "no such device".toList,
    "device unavailable".toList, "device removed".toList]

/-- Classification rules written the way the amended claim states them:
device-prefixed disconnect substrings, permission substrings, channel
closed, and everything else (including any "stream … failed" message)
StreamFailed. -/
def streamErrorClassSpec (msg : List Char) : AudioError :=
  let m := toLowerList msg
  if deviceGonePatterns.any (fun p => containsSub p m) then
    AudioError.DeviceDisconnected
  else if ["permission".toList, "access denied".toList].any
      (fun p => containsSub p m) then
    AudioError.PermissionDenied
  else if containsSub "channel closed".toList m then
    AudioError.ChannelClosed
  else
    AudioError.StreamFailed

/-! ### Sample-format conversion
(`SystemAudioCapture::start_system_audio_capture`,
`capture/system.rs:149-208`)

The callbacks convert with `sample as f32 / T::MAX as f32`. For `i8` and
`i16` every quantity is exactly representable in `f32` and the real
quotient is at distance `≥ 1/32767` from `-1` whenever it lies outside
`[-1, 1]`, far above the `2⁻²⁴` relative rounding error, so the exact
rational value decides the claim. For `i32`, `i32::MAX as f32` rounds to
`2³¹` exactly, and the numerator rounding keeps `|sample| ≤ 2³¹`, so the
rational model uses the divisor `2³¹`. -/

/-- The I8 branch: `sample as f32 / i8::MAX as f32`. -/
def i8ToF32 (s : Int) : ℚ := (s : ℚ) / 127

/-- The I16 branch: `sample as f32 / i16::MAX as f32`. -/
def i16ToF32 (s : Int) : ℚ := (s : ℚ) / 32767

/-- The I32 branch: `sample as f32 / i32::MAX as f32`, whose divisor is
the `f32` value `2³¹`. -/
def i32ToF32 (s : Int) : ℚ := (s : ℚ) / 2147483648

/-- The F32 branch passes samples through unchanged (`data.to_vec()`). -/
def f32SampleCast (s : ℚ) : ℚ := s

/-! ## The audio pipeline (`audio/pipeline.rs`)

Samples (`f32`) and timestamps (`f64`) are abstract types `S` and `T`: no
claim about the pipeline task depends on their values. The mixer, the VAD
processor, the persistent resampler and the microphone-enhancement kernels
live outside `src/` (out-of-scope DSP per the design document), so they are
opaque parameters of the embedding; every theorem holds for any behaviour
of those kernels. `u64` counters are `Nat` with `% 2 ^ 64` at each
wrapping increment. -/

/-- Embeds `enum DeviceType` of `recording_state.rs`: the exhaustive match in
`AudioPipeline::run` (`pipeline.rs:639-646`) shows its only variants are
`Microphone` and `System`. -/
inductive DeviceType where
  | Microphone
  | System
deriving DecidableEq, Repr

/-- Embeds `AudioChunk` of `recording_state.rs` as used by `pipeline.rs`. -/
structure AudioChunk (S T : Type) where
  data : List S
  sample_rate : Nat
  timestamp : T
  chunk_id : Nat
  device_type : DeviceType

/-- The value `2 ^ 64`: the modulus of `u64` arithmetic. -/
def u64Mod : Nat := 2 ^ 64

/-- A speech segment produced by the (opaque) VAD processor. -/
structure VadSegment (S T : Type) where
  samples : List S
  startTimestampMs : T
  endTimestampMs : T

/-- The opaque kernels the pipeline task calls: the FFmpeg-style mixer
(state `M`), the continuous VAD processor (state `V`), and the
milliseconds-to-seconds conversion on timestamps. `Option` return values
model `Result` (`none` = `Err`). -/
structure PipelineEnv (S T M V : Type) where
  pushMic : M → List S → M
  pushSystem : M → List S → M
  hasDataReady : M → Bool
  popMixed : M → Option (List S) × M
  vadProcess : V → List S → Option (List (VadSegment S T)) × V
  vadFlush : V → Option (List (VadSegment S T)) × V
  msToSec : T → T

/-- Pipeline-task configuration: `self.sample_rate` and whether
`recording_sender_for_mixed` is connected. -/
structure PipelineConfig where
  sample_rate : Nat
  hasRecordingSender : Bool

/-- The mutable state of the pipeline task: mixer, VAD processor, and
`chunk_id_counter`. -/
structure PipelineState (M V : Type) where
  mixer : M
  vad : V
  chunk_id_counter : Nat

/-- The observable result of a pipeline-task run: the chunks sent to the
transcription sink, the chunks sent to the recording sink, and the final
state. -/
structure StepOut (S T M V : Type) where
  trans : List (AudioChunk S T)
  recd : List (AudioChunk S T)
  state : PipelineState M V

/-- The `for segment in speech_segments` loop (`pipeline.rs:659-683` and
`739-756`): segments of at least 800 samples become transcription chunks
with `sample_rate: 16000`, the current counter value as `chunk_id` and
`device_type: Microphone`; the counter is incremented after each
successful send. -/
def sendSegments (env : PipelineEnv S T M V) :
    List (VadSegment S T) → Nat → List (AudioChunk S T) × Nat
  | [], c => ([], c)
  | seg :: rest, c =>
    if 800 ≤ seg.samples.length then
      let ch : AudioChunk S T :=
        ⟨seg.samples, 16000, env.msToSec seg.startTimestampMs, c,
          DeviceType.Microphone⟩
      let r := sendSegments env rest ((c + 1) % u64Mod)
      (ch :: r.1, r.2)
    else
      sendSegments env rest c

/-- Embeds `AudioPipeline::flush_remaining_audio` (`pipeline.rs:725`): flush the
VAD processor and send the resulting segments; a flush error only logs. -/
def flushRemainingAudio (env : PipelineEnv S T M V) (v : V) (c : Nat) :
    List (AudioChunk S T) × V × Nat :=
  match env.vadFlush v with
  | (some segs, v') =>
    let r := sendSegments env segs c
    (r.1, v', r.2)
  | (none, v') => ([], v', c)

/-- One drained window and its fan-out, iterated while the mixer is ready
(`pipeline.rs:650-705`). The `while` loop is modelled with explicit fuel;
every property proved below holds for every fuel value. Per window: VAD
processing and segment sends (STEP 3), then a recording chunk carrying the
pipeline sample rate and the current counter value (STEP 4). -/
def drainMixer (env : PipelineEnv S T M V) (cfg : PipelineConfig) :
    Nat → M → V → Nat → T → StepOut S T M V
  | 0, m, v, c, _ => ⟨[], [], ⟨m, v, c⟩⟩
  | Nat.succ fuel, m, v, c, ts =>
    if env.hasDataReady m then
      match env.popMixed m with
      | (some mixed, m') =>
        let pr := env.vadProcess v mixed
        let sr :=
          match pr.1 with
          | some segs => sendSegments env segs c
          | none => ([], c)
        let recChunk : AudioChunk S T :=
          ⟨mixed, cfg.sample_rate, ts, sr.2, DeviceType.Microphone⟩
        let rest := drainMixer env cfg fuel m' pr.2 sr.2 ts
        ⟨sr.1 ++ rest.trans,
          (if cfg.hasRecordingSender then [recChunk] else []) ++ rest.recd,
          rest.state⟩
      | (none, m') => ⟨[], [], ⟨m', v, c⟩⟩
    else ⟨[], [], ⟨m, v, c⟩⟩

/-- Processing of one received chunk by the pipeline task
(`pipeline.rs:599-706`): a chunk with `chunk_id >= u64::MAX - 10` is a
flush sentinel and only flushes the VAD processor; any other chunk is
pushed to the mixer by `device_type` and the mixer is drained. -/
def stepChunk (env : PipelineEnv S T M V) (cfg : PipelineConfig)
    (fuel : Nat) (st : PipelineState M V) (chunk : AudioChunk S T) :
    StepOut S T M V :=
  if u64Mod - 11 ≤ chunk.chunk_id then
    let f := flushRemainingAudio env st.vad st.chunk_id_counter
    ⟨f.1, [], ⟨st.mixer, f.2.1, f.2.2⟩⟩
  else
    let m' :=
      match chunk.device_type with
      | DeviceType.Microphone => env.pushMic st.mixer chunk.data
      | DeviceType.System => env.pushSystem st.mixer chunk.data
    drainMixer env cfg fuel m' st.vad st.chunk_id_counter chunk.timestamp

/-- Embeds `AudioPipeline::run` (`pipeline.rs:590`): process the received chunks
in order, then flush the VAD remainder on exit. -/
def runPipeline (env : PipelineEnv S T M V) (cfg : PipelineConfig)
    (fuel : Nat) : List (AudioChunk S T) → PipelineState M V →
    StepOut S T M V
  | [], st =>
    let f := flushRemainingAudio env st.vad st.chunk_id_counter
    ⟨f.1, [], ⟨st.mixer, f.2.1, f.2.2⟩⟩
  | ch :: rest, st =>
    let s := stepChunk env cfg fuel st ch
    let r := runPipeline env cfg fuel rest s.state
    ⟨s.trans ++ r.trans, s.recd ++ r.recd, r.state⟩

/-- The combined invariant of one pipeline processing step: every
transcription chunk carries `sample_rate = 16000`,
`device_type = Microphone` and at least 800 samples; the transcription
`chunk_id`s are the successive counter values; the counter advances by the
number of transcription chunks (mod `2 ^ 64`); and every recording chunk
carries an intermediate counter value, the pipeline sample rate and
`device_type = Microphone`. -/
def stepInvariant (cfg : PipelineConfig) (c : Nat)
    (out : StepOut S T M V) : Prop :=
  (∀ ch ∈ out.trans,
    ch.sample_rate = 16000 ∧ ch.device_type = DeviceType.Microphone ∧
      800 ≤ ch.data.length) ∧
  out.trans.map AudioChunk.chunk_id =
    (List.range' c out.trans.length).map (· % u64Mod) ∧
  out.state.chunk_id_counter = (c + out.trans.length) % u64Mod ∧
  out.state.chunk_id_counter < u64Mod ∧
  (∀ ch ∈ out.recd, ∃ k, k ≤ out.trans.length ∧
    ch.chunk_id = (c + k) % u64Mod ∧
    ch.sample_rate = cfg.sample_rate ∧
    ch.device_type = DeviceType.Microphone)

/-- A concrete instantiation of the opaque kernels, used to exercise the
pipeline theorems on a closed run: the mixer readiness flag flips on push,
popping yields one window, and the VAD reports one 800-sample segment per
window. -/
def envProbe : PipelineEnv Unit Unit Bool Unit where
  pushMic := fun _ _ => true
  pushSystem := fun _ _ => true
  hasDataReady := fun m => m
  popMixed := fun _ => (some [()], false)
  vadProcess := fun v _ => (some [⟨List.replicate 800 (), (), ()⟩], v)
  vadFlush := fun v => (some [], v)
  msToSec := fun t => t

/-- A concrete pipeline configuration for the probe runs. -/
def cfgProbe : PipelineConfig := ⟨48000, true⟩

/-- A concrete non-sentinel microphone chunk for the probe runs. -/
def micChunkProbe : AudioChunk Unit Unit :=
  ⟨[()], 48000, (), 0, DeviceType.Microphone⟩

/-! ## `AudioCapture::process_audio_data` (`pipeline.rs:211-475`)

The capture callback path. The downmix helper, the persistent resampler,
the fallback `resample_audio`, the high-pass filter, RNNoise and the
EBU R128 normalizer are opaque parameters; the `std::sync::Mutex` locks
around the optional kernels always succeed in the embedding (a poisoned
lock only skips a stage in the source). -/

/-- The opaque kernels the capture callback calls. `R` is the persistent
resampler state, `H` the high-pass filter, `N` the noise suppressor, `U`
the loudness normalizer. `resampleProcess` returning `none` models a
`rubato` processing `Err`. -/
structure CaptureEnv (S R H N U : Type) where
  audioToMono : List S → Nat → List S
  resampleProcess : R → List S → Option (List S) × R
  resampleFallback : List S → Nat → Nat → List S
  hpfProcess : H → List S → List S × H
  nsProcess : N → List S → List S × N
  normalize : U → List S → List S × U

/-- Per-capture configuration fixed at `AudioCapture::new`. -/
structure CaptureConfig where
  channels : Nat
  sample_rate : Nat
  device_type : DeviceType
  needs_resampling : Bool
  hasRecordingSender : Bool
  rnnoiseEnabled : Bool

/-- The mutable per-capture state: the recording flag read from
`RecordingState`, the resampler input buffer, the chunk counter, the
optional kernels, and the current recording timestamp. -/
structure CaptureState (S R H N U T : Type) where
  is_recording : Bool
  resampler_input_buffer : List S
  chunk_counter : Nat
  resampler : Option R
  high_pass_filter : Option H
  noise_suppressor : Option N
  normalizer : Option U
  now : T

/-- Result of draining the resampler input buffer
(`pipeline.rs:254-273`): the collected resampled output, the remaining
buffer, the updated resampler, whether the persistent resampler stayed
usable (`used_persistent_resampler`), and the list of blocks passed to
`resampler.process`. -/
structure DrainROut (S R : Type) where
  output : List S
  buffer : List S
  resampler : R
  ok : Bool
  blocks : List (List S)

/-- The `while buffer_lock.len() >= self.resampler_chunk_size` loop
(`pipeline.rs:254-273`): drain exactly 512 samples at a time, feed them to
the persistent resampler, stop on the first error. -/
def drainResampler (env : CaptureEnv S R H N U) (r : R)
    (buf acc : List S) (blocks : List (List S)) : DrainROut S R :=
  if h : 512 ≤ buf.length then
    match env.resampleProcess r (buf.take 512) with
    | (some out, r') =>
      drainResampler env r' (buf.drop 512) (acc ++ out)
        (blocks ++ [buf.take 512])
    | (none, r') =>
      ⟨acc, buf.drop 512, r', false, blocks ++ [buf.take 512]⟩
  else ⟨acc, buf, r, true, blocks⟩
termination_by buf.length
decreasing_by
  simp
  omega

/-- Result of the resampling stage: `emitted = none` models the early
`return` while the buffer is still accumulating. -/
structure ResampleOut (S R : Type) where
  emitted : Option (List S)
  buffer : List S
  resampler : Option R
  blocks : List (List S)

/-- The resampling stage of `process_audio_data` (`pipeline.rs:232-298`):
append the new samples to the per-source buffer, drain complete 512-sample
blocks through the persistent resampler; if any output was produced use
it, else fall back to one-shot `resample_audio` only when the persistent
resampler is unavailable or failed, else return early (data stays
buffered). -/
def processResampling (env : CaptureEnv S R H N U) (cfg : CaptureConfig)
    (rOpt : Option R) (buf mono : List S) : ResampleOut S R :=
  let buf1 := buf ++ mono
  match rOpt with
  | some r =>
    let d := drainResampler env r buf1 [] []
    if d.output.isEmpty = false then
      ⟨some d.output, d.buffer, some d.resampler, d.blocks⟩
    else if d.ok = false then
      ⟨some (env.resampleFallback mono cfg.sample_rate 48000), d.buffer,
        some d.resampler, d.blocks⟩
    else
      ⟨none, d.buffer, some d.resampler, d.blocks⟩
  | none =>
    ⟨some (env.resampleFallback mono cfg.sample_rate 48000), buf1, none, []⟩

/-- What the capture callback sends: the optional clone to the recording
saver and the chunk sent to the pipeline channel. -/
structure CaptureOut (S T : Type) where
  toRecording : Option (AudioChunk S T)
  toPipeline : Option (AudioChunk S T)

/-- The enhancement-and-send tail of `process_audio_data`
(`pipeline.rs:336-475`): microphone-only high-pass → RNNoise (flag-gated)
→ EBU R128, then build the chunk with the fetched counter value and send
it to the recording saver (when connected) and to the pipeline. -/
def finishCapture (env : CaptureEnv S R H N U) (cfg : CaptureConfig)
    (st : CaptureState S R H N U T) (mono : List S) :
    CaptureOut S T × CaptureState S R H N U T :=
  let e :=
    if cfg.device_type = DeviceType.Microphone then
      let s1 : List S × Option H :=
        match st.high_pass_filter with
        | some hf =>
          let r := env.hpfProcess hf mono
          (r.1, some r.2)
        | none => (mono, none)
      let s2 : List S × Option N :=
        if cfg.rnnoiseEnabled then
          match st.noise_suppressor with
          | some ns =>
            let r := env.nsProcess ns s1.1
            (r.1, some r.2)
          | none => (s1.1, none)
        else (s1.1, st.noise_suppressor)
      let s3 : List S × Option U :=
        match st.normalizer with
        | some u =>
          let r := env.normalize u s2.1
          (r.1, some r.2)
        | none => (s2.1, none)
      (s3.1, s1.2, s2.2, s3.2)
    else (mono, st.high_pass_filter, st.noise_suppressor, st.normalizer)
  let chunk_id := st.chunk_counter
  let ch : AudioChunk S T :=
    ⟨e.1, if cfg.needs_resampling then 48000 else cfg.sample_rate,
      st.now, chunk_id, cfg.device_type⟩
  (⟨if cfg.hasRecordingSender then some ch else none, some ch⟩,
    { st with
      chunk_counter := (st.chunk_counter + 1) % u64Mod,
      high_pass_filter := e.2.1,
      noise_suppressor := e.2.2.1,
      normalizer := e.2.2.2 })

/-- Embeds `AudioCapture::process_audio_data` (`pipeline.rs:211`): bail out when
not recording; downmix; resample through the buffered persistent
resampler with early return while buffering; enhance (microphone only);
then build and send the chunk. -/
def process_audio_data (env : CaptureEnv S R H N U) (cfg : CaptureConfig)
    (st : CaptureState S R H N U T) (data : List S) :
    CaptureOut S T × CaptureState S R H N U T :=
  if st.is_recording = false then
    (⟨none, none⟩, st)
  else
    let mono0 :=
      if 1 < cfg.channels then env.audioToMono data cfg.channels else data
    if cfg.needs_resampling then
      let ro := processResampling env cfg st.resampler
        st.resampler_input_buffer mono0
      match ro.emitted with
      | none =>
        (⟨none, none⟩,
          { st with
            resampler_input_buffer := ro.buffer,
            resampler := ro.resampler })
      | some mono1 =>
        finishCapture env cfg
          { st with
            resampler_input_buffer := ro.buffer,
            resampler := ro.resampler } mono1
    else
      finishCapture env cfg st mono0

/-- Concrete opaque kernels for the capture witnesses. -/
def envCapProbe : CaptureEnv Nat Unit Unit Unit Unit where
  audioToMono := fun l _ => l
  resampleProcess := fun r _ => (some [], r)
  resampleFallback := fun l _ _ => l
  hpfProcess := fun h l => (l, h)
  nsProcess := fun n l => (l, n)
  normalize := fun u l => (l, u)

/-- Concrete capture configuration for the witnesses: a mono 16 kHz device
that needs resampling. -/
def cfgCapProbe : CaptureConfig :=
  ⟨1, 16000, DeviceType.Microphone, true, true, false⟩

/-- Concrete capture state for the claim C5 witness: recording, two
samples already buffered, persistent resampler available. -/
def stCapProbe : CaptureState Nat Unit Unit Unit Unit Unit :=
  ⟨true, [1, 2], 0, some (), none, none, none, ()⟩

/-! ## Theorems -/

theorem walkBack_le (chars : List Char) (p : Nat) :
    ∀ b, walkBack chars p b ≤ b := by
  intro b
  induction b using Nat.strong_induction_on with
  | _ b ih =>
    rw [walkBack]
    split
    · next h =>
      exact le_trans (ih (b - 1) (by omega)) (by omega)
    · exact le_rfl

theorem walkBack_ge (chars : List Char) (p : Nat) :
    ∀ b, p ≤ b → p ≤ walkBack chars p b := by
  intro b
  induction b using Nat.strong_induction_on with
  | _ b ih =>
    intro hpb
    rw [walkBack]
    split
    · next h =>
      exact ih (b - 1) (by omega) (by omega)
    · exact hpb

theorem walkBack_stop (chars : List Char) (p b : Nat) :
    walkBack chars p b ≤ p ∨
      (chars.getD (walkBack chars p b) 'x').isWhitespace := by
  induction b using Nat.strong_induction_on with
  | _ b ih =>
    rw [walkBack]
    split
    · next h =>
      exact ih (b - 1) (by omega)
    · next h =>
      rcases not_and_or.mp h with h1 | h2
      · exact Or.inl (by omega)
      · exact Or.inr (not_not.mp h2)

theorem walkBack_above (chars : List Char) (p : Nat) :
    ∀ b j, walkBack chars p b < j → j ≤ b →
      ¬ (chars.getD j 'x').isWhitespace := by
  intro b
  induction b using Nat.strong_induction_on with
  | _ b ih =>
    intro j h1 h2
    rw [walkBack] at h1
    split at h1
    · next h =>
      rcases Nat.lt_or_ge (b - 1) j with hj | hj
      · have hjb : j = b := by omega
        subst hjb
        exact h.2
      · exact ih (b - 1) (by omega) j h1 hj
    · omega

theorem chunkLoop_eq (chars : List Char) (C O p : Nat)
    (h : p < chars.length) :
    chunkLoop chars C O p =
      if chunkEnd chars C p = chars.length then
        [slice chars p (chunkEnd chars C p)]
      else
        slice chars p (chunkEnd chars C p) ::
          chunkLoop chars C O (p + chunkStep C O) := by
  rw [chunkLoop]
  simp only [h, dite_true, chunkEnd, slice]

theorem chunkEnd_gt (chars : List Char) (C p : Nat) (hC : 0 < C)
    (hp : p < chars.length) : p < chunkEnd chars C p := by
  simp only [chunkEnd]
  have hn : p < min (p + C) chars.length := by omega
  split
  · split
    · next h => exact h
    · exact hn
  · exact hn

theorem chunkEnd_le_nominal (chars : List Char) (C p : Nat) :
    chunkEnd chars C p ≤ min (p + C) chars.length := by
  simp only [chunkEnd]
  split
  · split
    · next h =>
      exact le_trans (walkBack_le chars p _) le_rfl
    · exact le_rfl
  · exact le_rfl

theorem chunkEnd_le_length (chars : List Char) (C p : Nat) :
    chunkEnd chars C p ≤ chars.length :=
  le_trans (chunkEnd_le_nominal chars C p) (min_le_right _ _)

theorem chunkEnd_ne_length (chars : List Char) (C p : Nat)
    (h : chunkEnd chars C p ≠ chars.length) : p + C < chars.length := by
  by_contra hc
  have hm : min (p + C) chars.length = chars.length := by omega
  unfold chunkEnd at h
  rw [hm] at h
  simp at h

/-- At a window whose nominal end `p + C` is interior, the computed end is
either the nominal end itself, or a whitespace position followed only by
non-whitespace positions up to the nominal end. -/
theorem chunkEnd_gap (chars : List Char) (C p : Nat)
    (hn : p + C < chars.length) :
    chunkEnd chars C p = p + C ∨
      ((chars.getD (chunkEnd chars C p) 'x').isWhitespace ∧
        ∀ j, chunkEnd chars C p < j → j ≤ p + C →
          ¬ (chars.getD j 'x').isWhitespace) := by
  unfold chunkEnd
  have hm : min (p + C) chars.length = p + C := by omega
  rw [hm]
  simp only [hn, if_true]
  split
  · next hb =>
    rcases walkBack_stop chars p (p + C) with h | h
    · omega
    · exact Or.inr ⟨h, fun j h1 h2 => walkBack_above chars p (p + C) j h1 h2⟩
  · exact Or.inl rfl

theorem slice_length (l : List Char) (a b : Nat) (hb : b ≤ l.length) :
    (slice l a b).length = b - a := by
  simp [slice]
  omega

theorem slice_eq_drop (l : List Char) (a : Nat) :
    slice l a l.length = l.drop a := by
  simp [slice]

theorem slice_append_drop (l : List Char) (a b : Nat) (hab : a ≤ b) :
    slice l a b ++ l.drop b = l.drop a := by
  have h1 : l.drop b = (l.drop a).drop (b - a) := by
    rw [List.drop_drop]
    congr 1
    omega
  rw [slice, h1, List.take_append_drop]

theorem slice_cons (l : List Char) (a b : Nat) (hab : a < b)
    (ha : a < l.length) :
    slice l a b = l.getD a 'x' :: slice l (a + 1) b := by
  rw [slice, List.drop_eq_getElem_cons ha, slice]
  have h2 : b - a = (b - (a + 1)) + 1 := by omega
  rw [h2, List.take_succ_cons, List.getD_eq_getElem l 'x' ha]

theorem mem_slice (l : List Char) (a b : Nat) (x : Char)
    (hx : x ∈ slice l a b) :
    ∃ j, a ≤ j ∧ j < b ∧ j < l.length ∧ l.getD j 'x' = x := by
  rw [slice] at hx
  obtain ⟨i, hi, hget⟩ := List.mem_iff_getElem.mp hx
  have hi1 : i < b - a := lt_of_lt_of_le hi (by simp [List.length_take])
  have hi2 : a + i < l.length := by
    have := hi
    simp [List.length_take, List.length_drop] at this
    omega
  refine ⟨a + i, by omega, by omega, hi2, ?_⟩
  rw [List.getD_eq_getElem l 'x' hi2, ← hget]
  rw [List.getElem_take, List.getElem_drop]

theorem slice_drop (l : List Char) (a b m : Nat) :
    (slice l a b).drop m = slice l (a + m) (b - m + m) := by
  by_cases h : m ≤ b - a
  · rw [slice, List.drop_take, List.drop_drop, slice]
    congr 1
    omega
  · rw [slice, slice]
    have h1 : (b - a) ≤ m := by omega
    rw [List.drop_eq_nil_iff.mpr (by simp [List.length_take]; omega)]
    symm
    rw [List.take_eq_nil_iff]
    omega

theorem slice_take (l : List Char) (a b m : Nat) (h : a + m ≤ b) :
    (slice l a b).take m = slice l a (a + m) := by
  rw [slice, List.take_take, slice]
  congr 1
  omega

/-- Every gap dropped between the slice ending at `chunkEnd` and the nominal
window end is a well-formed boundary gap. -/
theorem boundaryGap_of_chunkEnd (chars : List Char) (C p : Nat)
    (hn : p + C < chars.length) :
    isBoundaryGap (slice chars (chunkEnd chars C p) (p + C)) = true := by
  rcases chunkEnd_gap chars C p hn with h | ⟨hws, habove⟩
  · rw [h]
    simp [slice, isBoundaryGap]
  · set e := chunkEnd chars C p with he
    by_cases hlt : e < p + C
    · rw [slice_cons chars e (p + C) hlt (by omega)]
      simp only [isBoundaryGap, Bool.and_eq_true]
      refine ⟨hws, ?_⟩
      rw [List.all_eq_true]
      intro x hx
      obtain ⟨j, hj1, hj2, hj3, hj4⟩ := mem_slice chars (e + 1) (p + C) x hx
      simp only [Bool.not_eq_eq_eq_not, Bool.not_true]
      rw [← hj4]
      exact Bool.eq_false_iff.mpr (habove j (by omega) (by omega))
    · have hge : p + C ≤ e := by omega
      have : slice chars e (p + C) = [] := by
        rw [slice, List.take_eq_nil_iff]
        omega
      rw [this]
      rfl

/-- Reconstruction invariant of the `chunk_text` loop at overlap 0: from any
start position, the produced chunks interleaved with well-formed boundary
gaps rebuild the rest of the text. -/
theorem chunkLoop_reconstruct (chars : List Char) (C : Nat) (hC : 0 < C) :
    ∀ d p, chars.length - p ≤ d → p < chars.length →
      ∃ gaps, (∀ g ∈ gaps, isBoundaryGap g = true) ∧
        interleave (chunkLoop chars C 0 p) gaps = chars.drop p := by
  intro d
  induction d with
  | zero =>
    intro p h1 h2
    omega
  | succ d ih =>
    intro p h1 h2
    rw [chunkLoop_eq chars C 0 p h2]
    by_cases he : chunkEnd chars C p = chars.length
    · refine ⟨[], by simp, ?_⟩
      simp only [he, if_true, interleave]
      rw [List.append_nil, slice_eq_drop]
    · have hn : p + C < chars.length := chunkEnd_ne_length chars C p he
      have hstep : chunkStep C 0 = C := by
        simp [chunkStep]
        omega
      have hpe : p < chunkEnd chars C p := chunkEnd_gt chars C p hC h2
      have hen : chunkEnd chars C p ≤ p + C :=
        le_trans (chunkEnd_le_nominal chars C p) (min_le_left _ _)
      obtain ⟨gaps, hg, hrec⟩ := ih (p + C) (by omega) (by omega)
      refine ⟨slice chars (chunkEnd chars C p) (p + C) :: gaps, ?_, ?_⟩
      · intro g hgmem
        rcases List.mem_cons.mp hgmem with h | h
        · rw [h]
          exact boundaryGap_of_chunkEnd chars C p hn
        · exact hg g h
      · simp only [he, if_false, interleave, hstep]
        rw [hrec, slice_append_drop chars _ (p + C) hen,
          slice_append_drop chars p _ (by omega)]

/-- Adjacent-chunk sharing invariant of the `chunk_text` loop for positive
overlap below the window size. -/
theorem chunkLoop_chain (chars : List Char) (C O : Nat) (hOC : O < C) :
    ∀ d p, chars.length - p ≤ d → p < chars.length →
      List.Chain' (shareRel C O) (chunkLoop chars C O p) := by
  intro d
  induction d with
  | zero =>
    intro p h1 h2
    omega
  | succ d ih =>
    intro p h1 h2
    rw [chunkLoop_eq chars C O p h2]
    by_cases he : chunkEnd chars C p = chars.length
    · simp [he]
    · simp only [he, if_false]
      have hn : p + C < chars.length := chunkEnd_ne_length chars C p he
      have hstep : chunkStep C O = C - O := by
        simp [chunkStep]
        omega
      have hp' : p + chunkStep C O < chars.length := by
        rw [hstep]
        omega
      rw [List.chain'_cons']
      refine ⟨?_, ih (p + chunkStep C O) (by rw [hstep]; omega) hp'⟩
      intro b hb
      rw [chunkLoop_eq chars C O _ hp'] at hb
      have hb2 : b = slice chars (p + chunkStep C O)
          (chunkEnd chars C (p + chunkStep C O)) := by
        by_cases h2e : chunkEnd chars C (p + chunkStep C O) = chars.length
        · simp only [h2e, if_true, List.head?_cons, Option.mem_def,
            Option.some.injEq] at hb
          rw [← hb, h2e]
        · simp only [h2e, if_false, List.head?_cons, Option.mem_def,
            Option.some.injEq] at hb
          rw [← hb]
      intro hlen hOlen
      have he1 : chunkEnd chars C p ≤ p + C :=
        le_trans (chunkEnd_le_nominal chars C p) (min_le_left _ _)
      have he2 : chunkEnd chars C p ≤ chars.length :=
        chunkEnd_le_length chars C p
      have hlen2 : (slice chars p (chunkEnd chars C p)).length =
          chunkEnd chars C p - p := slice_length chars p _ he2
      have hfull : chunkEnd chars C p = p + C := by
        rw [hlen2] at hlen
        omega
      have he2' : chunkEnd chars C (p + chunkStep C O) ≤ chars.length :=
        chunkEnd_le_length chars C _
      have hgt2 : p + chunkStep C O < chunkEnd chars C (p + chunkStep C O) :=
        chunkEnd_gt chars C _ (by omega) hp'
      rw [hb2] at hOlen
      rw [slice_length chars _ _ he2'] at hOlen
      rw [hb2, hfull]
      rw [slice_drop chars p (p + C) (C - O)]
      rw [slice_take chars (p + chunkStep C O) _ O (by omega)]
      rw [hstep]
      congr 1
      omega

/-- Claim C3: the single-pass strategy is selected iff the provider is a
cloud provider (OpenAI, Claude, Groq, OpenRouter) or the rough token count
`⌈chars/4⌉` is below `token_threshold`; otherwise the multi-level strategy
(chunking with window `token_threshold - 300` and overlap `100`) is used. -/
theorem claim_C3 (provider : LLMProvider) (text : List Char)
    (token_threshold : Nat) :
    (usesSinglePass provider text token_threshold = true ↔
      (isCloudProvider provider = true ∨
        rough_token_count text < token_threshold)) ∧
    (usesSinglePass provider text token_threshold = true →
      summaryPlan provider text token_threshold =
        SummaryPlan.singlePass text) ∧
    (usesSinglePass provider text token_threshold = false →
      summaryPlan provider text token_threshold =
        SummaryPlan.multiLevel
          (chunk_text text (token_threshold - 300) 100)) := by
  refine ⟨?_, ?_, ?_⟩
  · cases provider <;> simp [usesSinglePass, isCloudProvider]
  · intro h
    simp only [summaryPlan, usesSinglePass] at h ⊢
    rw [h]
    rfl
  · intro h
    simp only [summaryPlan, usesSinglePass] at h ⊢
    rw [h]
    rfl

/-- Claim C4 fails as stated: for `text = "ab cdef"` and `k = 1` the chunks
are `["ab", "def"]` — the non-whitespace character `c` is dropped, so the
concatenation does not equal the text even after deleting every whitespace
character from both sides. -/
theorem claim_C4_counterexample :
    ((chunk_text "ab cdef".toList 1 0).flatten.filter
        (fun c => !c.isWhitespace)) ≠
      ("ab cdef".toList.filter (fun c => !c.isWhitespace)) := by
  simp [chunk_text, chunkLoop, walkBack, chunkStep]

/-- Claim C4 (amended): with overlap 0 the concatenation of the chunks
equals the text with, at each chunk boundary, a dropped gap that is either
empty or one whitespace character followed by a non-whitespace word
fragment (so word fragments, not only whitespace, may be lost); and for
`0 < overlap < chunk size`, every adjacent chunk pair whose left chunk has
the full window length `4k` and whose right chunk has at least `4o`
characters shares exactly the `4o`-character overlap region. -/
theorem claim_C4_amended (text : List Char) (k o : Nat) (hk : 0 < k)
    (ht : text ≠ []) (hok : o < k) :
    (∃ gaps, (∀ g ∈ gaps, isBoundaryGap g = true) ∧
        interleave (chunk_text text k 0) gaps = text) ∧
    List.Chain' (shareRel (k * 4) (o * 4)) (chunk_text text k o) := by
  constructor
  · unfold chunk_text
    have hne : text.isEmpty = false := by
      simpa [List.isEmpty_iff] using ht
    simp only [hne, Bool.false_or]
    have hk0 : (k = 0) = False := by simp; omega
    simp only [hk0, if_false]
    by_cases hlen : text.length ≤ k * 4
    · simp only [hlen, if_true]
      exact ⟨[], by simp, by simp [interleave]⟩
    · simp only [hlen, if_false]
      obtain ⟨gaps, hg, hrec⟩ :=
        chunkLoop_reconstruct text (k * 4) (by omega) text.length 0
          (by omega) (by omega)
      exact ⟨gaps, hg, by simpa using hrec⟩
  · unfold chunk_text
    have hne : text.isEmpty = false := by
      simpa [List.isEmpty_iff] using ht
    simp only [hne, Bool.false_or]
    have hk0 : (k = 0) = False := by simp; omega
    simp only [hk0, if_false]
    by_cases hlen : text.length ≤ k * 4
    · simp [hlen]
    · simp only [hlen, if_false]
      exact chunkLoop_chain text (k * 4) (o * 4) (by omega) text.length 0
        (by omega) (by omega)

/-- Witness for the amended claim C4 at a concrete input. -/
theorem claim_C4_witness :
    (0 < 2 ∧ "aaaa bbbb cc".toList ≠ [] ∧ 1 < 2) ∧
    ((∃ gaps, (∀ g ∈ gaps, isBoundaryGap g = true) ∧
        interleave (chunk_text "aaaa bbbb cc".toList 2 0) gaps =
          "aaaa bbbb cc".toList) ∧
      List.Chain' (shareRel (2 * 4) (1 * 4))
        (chunk_text "aaaa bbbb cc".toList 2 1)) :=
  ⟨⟨by decide, by decide, by decide⟩,
    claim_C4_amended "aaaa bbbb cc".toList 2 1 (by decide) (by decide)
      (by decide)⟩

theorem removeThink_of_no_open (l : List Char)
    (h : containsSub "<think".toList l = false) : removeThink l = l := by
  induction l with
  | nil => rw [removeThink]
  | cons c rest ih =>
    rw [containsSub, Bool.or_eq_false_iff] at h
    have hopen : matchThinkOpen (c :: rest) = none := by
      have h7 : "<think>".toList.isPrefixOf (c :: rest) = false := by
        by_contra hc
        simp only [Bool.not_eq_false] at hc
        have : "<think".toList.isPrefixOf (c :: rest) = true := by
          have h1 : "<think".toList <+: "<think>".toList := by decide
          exact List.isPrefixOf_iff_prefix.mpr
            (h1.trans (List.isPrefixOf_iff_prefix.mp hc))
        rw [this] at h
        exact absurd h.1 (by simp)
      have h10 : "<thinking>".toList.isPrefixOf (c :: rest) = false := by
        by_contra hc
        simp only [Bool.not_eq_false] at hc
        have : "<think".toList.isPrefixOf (c :: rest) = true := by
          have h1 : "<think".toList <+: "<thinking>".toList := by decide
          exact List.isPrefixOf_iff_prefix.mpr
            (h1.trans (List.isPrefixOf_iff_prefix.mp hc))
        rw [this] at h
        exact absurd h.1 (by simp)
      unfold matchThinkOpen
      rw [h10, h7]
      simp
    rw [removeThink, hopen]
    rw [ih h.2]

theorem trimList_trimList (l : List Char) :
    trimList (trimList l) = trimList l := by
  unfold trimList
  set t1 := l.dropWhile Char.isWhitespace with ht1
  have h1 : t1.dropWhile Char.isWhitespace = t1 := by
    rw [ht1, List.dropWhile_idempotent]
  have hpre : t1.rdropWhile Char.isWhitespace <+: t1 :=
    List.rdropWhile_prefix _ _
  have h2 : (t1.rdropWhile Char.isWhitespace).dropWhile Char.isWhitespace =
      t1.rdropWhile Char.isWhitespace := by
    obtain ⟨t, ht⟩ := hpre
    cases hx : t1.rdropWhile Char.isWhitespace with
    | nil => simp
    | cons a as =>
      have heq : t1 = a :: (as ++ t) := by
        rw [← ht, hx]
        simp
      rw [heq, List.dropWhile_cons] at h1
      rw [List.dropWhile_cons]
      split at h1
      · exfalso
        have := congrArg List.length h1
        have hle := (List.dropWhile_suffix (l := as ++ t)
          Char.isWhitespace).length_le
        rw [List.length_cons] at this
        omega
      · next hws =>
        simp [hws]
  rw [h2, List.rdropWhile_idempotent]

theorem trimList_clean (x : List Char) :
    trimList (clean_llm_markdown_output x) = clean_llm_markdown_output x := by
  simp only [clean_llm_markdown_output]
  split
  · exact trimList_trimList _
  · split
    · exact trimList_trimList _
    · exact trimList_trimList _

/-- Claim C6 fails as stated: `clean_llm_markdown_output` is not
idempotent. On `"```\n```\nhello\n```\n```"` the first pass strips the
outer fence leaving `"```\nhello\n```"`, and a second pass strips again,
yielding `"hello"`. -/
theorem claim_C6_counterexample :
    clean_llm_markdown_output (clean_llm_markdown_output
        "```\n```\nhello\n```\n```".toList) ≠
      clean_llm_markdown_output "```\n```\nhello\n```\n```".toList := by
  have e1 : clean_llm_markdown_output "```\n```\nhello\n```\n```".toList =
      "```\nhello\n```".toList := by
    have h0 := removeThink_of_no_open "```\n```\nhello\n```\n```".toList
      (by decide)
    simp only [clean_llm_markdown_output]
    rw [h0]
    decide
  have e2 : clean_llm_markdown_output "```\nhello\n```".toList =
      "hello".toList := by
    have h0 := removeThink_of_no_open "```\nhello\n```".toList (by decide)
    simp only [clean_llm_markdown_output]
    rw [h0]
    decide
  rw [e1, e2]
  decide

/-- Claim C6 (amended): `clean_llm_markdown_output` is idempotent on every
input whose cleaned output contains no `<think` opening and is not itself
fence-wrapped; in general a second application can strip further (nested
fences, or think tags reassembled by the first removal). -/
theorem claim_C6_amended (x : List Char)
    (h1 : containsSub "<think".toList (clean_llm_markdown_output x) = false)
    (h2 : fenceWrapped (clean_llm_markdown_output x) = false) :
    clean_llm_markdown_output (clean_llm_markdown_output x) =
      clean_llm_markdown_output x := by
  set y := clean_llm_markdown_output x with hy
  have hrt : removeThink y = y := removeThink_of_no_open _ h1
  have htr : trimList y = y := by
    rw [hy]
    exact trimList_clean x
  unfold fenceWrapped at h2
  rw [Bool.or_eq_false_iff] at h2
  simp only [clean_llm_markdown_output]
  rw [hrt, htr, h2.1, h2.2]
  simp

/-- Witness for the amended claim C6 at a concrete input. -/
theorem claim_C6_witness :
    (containsSub "<think".toList
        (clean_llm_markdown_output "hi".toList) = false ∧
      fenceWrapped (clean_llm_markdown_output "hi".toList) = false) ∧
    clean_llm_markdown_output (clean_llm_markdown_output "hi".toList) =
      clean_llm_markdown_output "hi".toList := by
  have e : clean_llm_markdown_output "hi".toList = "hi".toList := by
    have h0 := removeThink_of_no_open "hi".toList (by decide)
    simp only [clean_llm_markdown_output]
    rw [h0]
    decide
  exact ⟨⟨by rw [e]; decide, by rw [e]; decide⟩,
    claim_C6_amended "hi".toList (by rw [e]; decide) (by rw [e]; decide)⟩

theorem trimStartMatches_pos (pat l : List Char)
    (h : (!pat.isEmpty && pat.isPrefixOf l) = true) :
    trimStartMatches pat l = trimStartMatches pat (l.drop pat.length) := by
  rw [trimStartMatches, if_pos h]

theorem trimStartMatches_neg (pat l : List Char)
    (h : (!pat.isEmpty && pat.isPrefixOf l) = false) :
    trimStartMatches pat l = l := by
  rw [trimStartMatches, h]
  simp

/-- Claim C8 evaluated at the failing input
`"## Agenda\n# Team Sync\nDetails"`: the extracted title comes from the
`"# Team Sync"` line, but the persisted body still starts with that very
line — the stripping step removed the `"## Agenda"` line (the line
containing the first `'#'` character) instead. -/
theorem claim_C8 :
    extract_meeting_name_from_markdown
        "## Agenda\n# Team Sync\nDetails".toList =
      some "Team Sync".toList ∧
    persistedBody "## Agenda\n# Team Sync\nDetails".toList =
      "# Team Sync\nDetails".toList := by
  have h1 : trimStartMatches "# ".toList "# Team Sync".toList =
      "Team Sync".toList := by
    rw [trimStartMatches_pos _ _ (by decide),
      trimStartMatches_neg _ _ (by decide)]
    decide
  have h2 : extract_meeting_name_from_markdown
      "## Agenda\n# Team Sync\nDetails".toList = some "Team Sync".toList := by
    have hfind : (rustLines "## Agenda\n# Team Sync\nDetails".toList).find?
        (fun line => "# ".toList.isPrefixOf line) =
          some "# Team Sync".toList := by decide
    rw [extract_meeting_name_from_markdown, hfind]
    simp only [Option.map_some']
    rw [h1]
    decide
  refine ⟨h2, ?_⟩
  rw [persistedBody, h2]
  decide

/-- Claim C7 fails as stated: the message `"output not found"` contains the
substring `"not found"`, yet the code classifies it `StreamFailed`, not
`DeviceDisconnected` — the code requires the device-prefixed substring
`"device not found"`. -/
theorem claim_C7_counterexample :
    containsSub "not found".toList
        (toLowerList "output not found".toList) = true ∧
    handle_stream_error "output not found".toList =
      AudioError.StreamFailed ∧
    AudioError.StreamFailed ≠ AudioError.DeviceDisconnected := by
  refine ⟨by decide, ?_, by decide⟩
  decide

/-- Claim C7 (amended): classification is by substring of the lowercased
message with the device-prefixed substrings `"device is no longer
available"`, `"device not found"`, `"device disconnected"`, `"no such
device"`, `"device unavailable"`, `"device removed"` →
`DeviceDisconnected`; `"permission"`/`"access denied"` →
`PermissionDenied`; `"channel closed"` → `ChannelClosed`; and every other
message (in particular any stream-failure message) → `StreamFailed`. -/
theorem claim_C7_amended (msg : List Char) :
    handle_stream_error msg = streamErrorClassSpec msg := by
  simp only [handle_stream_error, streamErrorClassSpec, deviceGonePatterns,
    List.any_cons, List.any_nil, Bool.or_false, Bool.or_assoc, ite_self]

/-- Claim C9 fails as stated: the most negative `i16` sample `-32768` is a
valid input and converts to `-32768/32767 < -1`, outside `[-1, 1]`. -/
theorem claim_C9_counterexample :
    i16ToF32 (-32768) < -1 ∧ -(2 ^ 15) ≤ (-32768 : Int) := by
  constructor
  · rw [i16ToF32]
    norm_num
  · norm_num

/-- Claim C9 (amended): the `i8` and `i16` conversions lie in
`[-MIN/MAX, 1]`, hence within `[-1, 1]` for every sample except the most
negative one, which lands slightly below `-1`; the `i32` conversion lies
in `[-1, 1]` (its divisor is `2³¹`); `f32` samples pass through
unchanged. -/
theorem claim_C9_amended (s8 s16 s32 : Int) (x : ℚ)
    (h8a : -128 ≤ s8) (h8b : s8 ≤ 127)
    (h16a : -32768 ≤ s16) (h16b : s16 ≤ 32767)
    (h32a : -2147483648 ≤ s32) (h32b : s32 ≤ 2147483647) :
    (-(128 : ℚ) / 127 ≤ i8ToF32 s8 ∧ i8ToF32 s8 ≤ 1) ∧
    (-(32768 : ℚ) / 32767 ≤ i16ToF32 s16 ∧ i16ToF32 s16 ≤ 1) ∧
    (-1 ≤ i32ToF32 s32 ∧ i32ToF32 s32 ≤ 1) ∧
    f32SampleCast x = x ∧
    (-127 ≤ s8 → -1 ≤ i8ToF32 s8) ∧
    (-32767 ≤ s16 → -1 ≤ i16ToF32 s16) := by
  have c8a : (-128 : ℚ) ≤ (s8 : ℚ) := by exact_mod_cast h8a
  have c8b : (s8 : ℚ) ≤ 127 := by exact_mod_cast h8b
  have c16a : (-32768 : ℚ) ≤ (s16 : ℚ) := by exact_mod_cast h16a
  have c16b : (s16 : ℚ) ≤ 32767 := by exact_mod_cast h16b
  have c32a : (-2147483648 : ℚ) ≤ (s32 : ℚ) := by exact_mod_cast h32a
  have c32b : (s32 : ℚ) ≤ 2147483647 := by exact_mod_cast h32b
  refine ⟨⟨?_, ?_⟩, ⟨?_, ?_⟩, ⟨?_, ?_⟩, rfl, ?_, ?_⟩
  · rw [i8ToF32, div_le_div_iff₀ (by norm_num) (by norm_num)]
    linarith
  · rw [i8ToF32, div_le_one (by norm_num)]
    linarith
  · rw [i16ToF32, div_le_div_iff₀ (by norm_num) (by norm_num)]
    linarith
  · rw [i16ToF32, div_le_one (by norm_num)]
    linarith
  · rw [i32ToF32, le_div_iff₀ (by norm_num)]
    linarith
  · rw [i32ToF32, div_le_one (by norm_num)]
    linarith
  · intro h
    have ch : (-127 : ℚ) ≤ (s8 : ℚ) := by exact_mod_cast h
    rw [i8ToF32, le_div_iff₀ (by norm_num)]
    linarith
  · intro h
    have ch : (-32767 : ℚ) ≤ (s16 : ℚ) := by exact_mod_cast h
    rw [i16ToF32, le_div_iff₀ (by norm_num)]
    linarith

/-- Witness for the amended claim C9 at concrete samples. -/
theorem claim_C9_witness :
    ((-128 : Int) ≤ 5 ∧ (5 : Int) ≤ 127 ∧ (-32768 : Int) ≤ -7 ∧
      (-7 : Int) ≤ 32767 ∧ (-2147483648 : Int) ≤ 11 ∧
      (11 : Int) ≤ 2147483647) ∧
    ((-(128 : ℚ) / 127 ≤ i8ToF32 5 ∧ i8ToF32 5 ≤ 1) ∧
      (-(32768 : ℚ) / 32767 ≤ i16ToF32 (-7) ∧ i16ToF32 (-7) ≤ 1) ∧
      (-1 ≤ i32ToF32 11 ∧ i32ToF32 11 ≤ 1) ∧
      f32SampleCast (1 / 2) = 1 / 2 ∧
      (-127 ≤ (5 : Int) → -1 ≤ i8ToF32 5) ∧
      (-32767 ≤ (-7 : Int) → -1 ≤ i16ToF32 (-7))) :=
  ⟨by norm_num,
    claim_C9_amended 5 (-7) 11 (1 / 2) (by norm_num) (by norm_num)
      (by norm_num) (by norm_num) (by norm_num) (by norm_num)⟩

theorem u64Mod_pos : 0 < u64Mod := by
  simp [u64Mod]

theorem map_mod_range' (n : Nat) :
    ∀ a b, a % u64Mod = b % u64Mod →
      (List.range' a n).map (· % u64Mod) =
        (List.range' b n).map (· % u64Mod) := by
  induction n with
  | zero => intro a b _; simp
  | succ n ih =>
    intro a b h
    rw [List.range'_succ, List.range'_succ, List.map_cons, List.map_cons, h]
    congr 1
    apply ih
    rw [Nat.add_mod a 1, Nat.add_mod b 1, h]

theorem sendSegments_spec (env : PipelineEnv S T M V)
    (segs : List (VadSegment S T)) :
    ∀ c, c < u64Mod →
      (∀ ch ∈ (sendSegments env segs c).1,
        ch.sample_rate = 16000 ∧ ch.device_type = DeviceType.Microphone ∧
          800 ≤ ch.data.length) ∧
      (sendSegments env segs c).1.map AudioChunk.chunk_id =
        (List.range' c (sendSegments env segs c).1.length).map
          (· % u64Mod) ∧
      (sendSegments env segs c).2 =
        (c + (sendSegments env segs c).1.length) % u64Mod ∧
      (sendSegments env segs c).2 < u64Mod := by
  induction segs with
  | nil =>
    intro c hc
    refine ⟨by simp [sendSegments], by simp [sendSegments], ?_, ?_⟩
    · simp [sendSegments, Nat.mod_eq_of_lt hc]
    · simpa [sendSegments] using hc
  | cons seg rest ih =>
    intro c hc
    by_cases hlen : 800 ≤ seg.samples.length
    · have hc' : (c + 1) % u64Mod < u64Mod := Nat.mod_lt _ u64Mod_pos
      obtain ⟨ih1, ih2, ih3, ih4⟩ := ih ((c + 1) % u64Mod) hc'
      rw [sendSegments]
      simp only [hlen, if_true]
      refine ⟨?_, ?_, ?_, ih4⟩
      · intro ch hch
        rcases List.mem_cons.mp hch with h | h
        · rw [h]
          exact ⟨rfl, rfl, hlen⟩
        · exact ih1 ch h
      · rw [List.map_cons, List.length_cons, List.range'_succ, List.map_cons]
        congr 1
        · exact (Nat.mod_eq_of_lt hc).symm
        · rw [ih2]
          apply map_mod_range'
          exact Nat.mod_eq_of_lt hc'
      · rw [ih3, List.length_cons, Nat.mod_add_mod]
        congr 1
        omega
    · rw [sendSegments]
      simp only [hlen, if_false]
      exact ih c hc

theorem flushRemainingAudio_spec (env : PipelineEnv S T M V) (v : V)
    (c : Nat) (hc : c < u64Mod) :
    (∀ ch ∈ (flushRemainingAudio env v c).1,
      ch.sample_rate = 16000 ∧ ch.device_type = DeviceType.Microphone ∧
        800 ≤ ch.data.length) ∧
    (flushRemainingAudio env v c).1.map AudioChunk.chunk_id =
      (List.range' c (flushRemainingAudio env v c).1.length).map
        (· % u64Mod) ∧
    (flushRemainingAudio env v c).2.2 =
      (c + (flushRemainingAudio env v c).1.length) % u64Mod ∧
    (flushRemainingAudio env v c).2.2 < u64Mod := by
  rcases h : env.vadFlush v with ⟨segs?, v'⟩
  cases segs? with
  | none =>
    simp only [flushRemainingAudio, h]
    refine ⟨by simp, by simp, ?_, hc⟩
    simp [Nat.mod_eq_of_lt hc]
  | some segs =>
    simp only [flushRemainingAudio, h]
    exact sendSegments_spec env segs c hc

theorem stepInvariant_append {cfg : PipelineConfig} {c : Nat}
    {t1 r1 t2 r2 : List (AudioChunk S T)} {st1 : PipelineState M V}
    {st2 : PipelineState M V} (hc : c < u64Mod)
    (h1 : stepInvariant cfg c (⟨t1, r1, st1⟩ : StepOut S T M V))
    (h2 : stepInvariant cfg st1.chunk_id_counter
      (⟨t2, r2, st2⟩ : StepOut S T M V)) :
    stepInvariant cfg c (⟨t1 ++ t2, r1 ++ r2, st2⟩ : StepOut S T M V) := by
  obtain ⟨h1a, h1b, h1c, h1d, h1e⟩ := h1
  obtain ⟨h2a, h2b, h2c, h2d, h2e⟩ := h2
  refine ⟨?_, ?_, ?_, h2d, ?_⟩
  · intro ch hch
    rcases List.mem_append.mp hch with h | h
    · exact h1a ch h
    · exact h2a ch h
  · rw [List.map_append, List.length_append, h1b, h2b]
    have hsplit : List.range' c (t1.length + t2.length) =
        List.range' c t1.length ++ List.range' (c + t1.length) t2.length := by
      have h := List.range'_append c t1.length t2.length 1
      simp only [one_mul] at h
      rw [Nat.add_comm t1.length t2.length, ← h]
    rw [hsplit, List.map_append]
    congr 1
    apply map_mod_range'
    rw [h1c, Nat.mod_mod_of_dvd]
    exact dvd_rfl
  · rw [h2c, h1c, Nat.mod_add_mod]
    simp only [List.length_append]
    rw [Nat.add_assoc]
  · intro ch hch
    rcases List.mem_append.mp hch with h | h
    · obtain ⟨k, hk1, hk2, hk3, hk4⟩ := h1e ch h
      refine ⟨k, ?_, hk2, hk3, hk4⟩
      simp at hk1 ⊢
      omega
    · obtain ⟨k, hk1, hk2, hk3, hk4⟩ := h2e ch h
      refine ⟨t1.length + k, ?_, ?_, hk3, hk4⟩
      · simp at hk1 ⊢
        omega
      · rw [hk2, h1c, Nat.mod_add_mod, Nat.add_assoc]

theorem drainMixer_spec (env : PipelineEnv S T M V) (cfg : PipelineConfig) :
    ∀ (fuel : Nat) (m : M) (v : V) (c : Nat) (ts : T), c < u64Mod →
      stepInvariant cfg c (drainMixer env cfg fuel m v c ts) := by
  intro fuel
  induction fuel with
  | zero =>
    intro m v c ts hc
    refine ⟨by simp [drainMixer], by simp [drainMixer], ?_, ?_, ?_⟩
    · simp [drainMixer, Nat.mod_eq_of_lt hc]
    · simpa [drainMixer] using hc
    · simp [drainMixer]
  | succ fuel ih =>
    intro m v c ts hc
    by_cases hready : env.hasDataReady m
    · rcases hpop : env.popMixed m with ⟨mx?, m'⟩
      cases mx? with
      | none =>
        have hunfold : drainMixer env cfg (Nat.succ fuel) m v c ts =
            ⟨[], [], ⟨m', v, c⟩⟩ := by
          rw [drainMixer]
          simp [hready, hpop]
        rw [hunfold]
        refine ⟨by simp, by simp, ?_, hc, by simp⟩
        simp [Nat.mod_eq_of_lt hc]
      | some mixed =>
        set pr := env.vadProcess v mixed with hprdef
        set sr := (match pr.1 with
          | some segs => sendSegments env segs c
          | none => (([] : List (AudioChunk S T)), c)) with hsrdef
        set rest := drainMixer env cfg fuel m' pr.2 sr.2 ts with hrestdef
        set recChunk0 : AudioChunk S T :=
          ⟨mixed, cfg.sample_rate, ts, sr.2, DeviceType.Microphone⟩
          with hrecdef
        have hunfold : drainMixer env cfg (Nat.succ fuel) m v c ts =
            ⟨sr.1 ++ rest.trans,
              (if cfg.hasRecordingSender then [recChunk0] else []) ++
                rest.recd,
              rest.state⟩ := by
          rw [drainMixer]
          simp only [hready, if_true, hpop]
        have hsrspec : (∀ ch ∈ sr.1,
            ch.sample_rate = 16000 ∧ ch.device_type = DeviceType.Microphone ∧
              800 ≤ ch.data.length) ∧
            sr.1.map AudioChunk.chunk_id =
              (List.range' c sr.1.length).map (· % u64Mod) ∧
            sr.2 = (c + sr.1.length) % u64Mod ∧ sr.2 < u64Mod := by
          cases hp1 : pr.1 with
          | none =>
            rw [hp1] at hsrdef
            simp only [] at hsrdef
            rw [hsrdef]
            exact ⟨by simp, by simp, by simp [Nat.mod_eq_of_lt hc], hc⟩
          | some segs =>
            rw [hp1] at hsrdef
            simp only [] at hsrdef
            rw [hsrdef]
            exact sendSegments_spec env segs c hc
        obtain ⟨hsr1, hsr2, hsr3, hsr4⟩ := hsrspec
        have hrest := ih m' pr.2 sr.2 ts hsr4
        have h1 : stepInvariant cfg c
            (⟨sr.1, (if cfg.hasRecordingSender then [recChunk0] else []),
              ⟨m', pr.2, sr.2⟩⟩ : StepOut S T M V) := by
          refine ⟨hsr1, hsr2, by simpa using hsr3, by simpa using hsr4, ?_⟩
          intro ch hch
          have hcheq : ch = recChunk0 := by
            cases hs : cfg.hasRecordingSender
            · rw [hs] at hch
              simp at hch
            · rw [hs] at hch
              simpa using hch
          refine ⟨sr.1.length, by simp, ?_, ?_, ?_⟩
          · rw [hcheq, hrecdef]
            simpa using hsr3
          · rw [hcheq, hrecdef]
          · rw [hcheq, hrecdef]
        have h2 : stepInvariant cfg
            ((⟨m', pr.2, sr.2⟩ : PipelineState M V).chunk_id_counter)
            (⟨rest.trans, rest.recd, rest.state⟩ : StepOut S T M V) :=
          hrest
        have happ := stepInvariant_append hc h1 h2
        rw [hunfold]
        exact happ
    · have hunfold : drainMixer env cfg (Nat.succ fuel) m v c ts =
          ⟨[], [], ⟨m, v, c⟩⟩ := by
        rw [drainMixer]
        simp [hready]
      rw [hunfold]
      refine ⟨by simp, by simp, ?_, hc, by simp⟩
      simp [Nat.mod_eq_of_lt hc]

theorem stepChunk_spec (env : PipelineEnv S T M V) (cfg : PipelineConfig)
    (fuel : Nat) (st : PipelineState M V) (chunk : AudioChunk S T)
    (hc : st.chunk_id_counter < u64Mod) :
    stepInvariant cfg st.chunk_id_counter
      (stepChunk env cfg fuel st chunk) := by
  rw [stepChunk]
  by_cases hsent : u64Mod - 11 ≤ chunk.chunk_id
  · simp only [hsent, if_true]
    obtain ⟨ha, hb, hcc, hd⟩ :=
      flushRemainingAudio_spec env st.vad st.chunk_id_counter hc
    exact ⟨ha, hb, hcc, hd, by simp⟩
  · simp only [hsent, if_false]
    exact drainMixer_spec env cfg fuel _ st.vad st.chunk_id_counter
      chunk.timestamp hc

theorem runPipeline_spec (env : PipelineEnv S T M V) (cfg : PipelineConfig)
    (fuel : Nat) (chunks : List (AudioChunk S T)) :
    ∀ st : PipelineState M V, st.chunk_id_counter < u64Mod →
      stepInvariant cfg st.chunk_id_counter
        (runPipeline env cfg fuel chunks st) := by
  induction chunks with
  | nil =>
    intro st hc
    rw [runPipeline]
    obtain ⟨ha, hb, hcc, hd⟩ :=
      flushRemainingAudio_spec env st.vad st.chunk_id_counter hc
    exact ⟨ha, hb, hcc, hd, by simp⟩
  | cons ch rest ih =>
    intro st hc
    rw [runPipeline]
    have h1 := stepChunk_spec env cfg fuel st ch hc
    have h2 := ih (stepChunk env cfg fuel st ch).state h1.2.2.2.1
    exact stepInvariant_append hc h1 h2

theorem range'_mod_eq (n : Nat) (h : n ≤ u64Mod) :
    (List.range' 0 n).map (· % u64Mod) = List.range' 0 n := by
  have hcong : ∀ x ∈ List.range' 0 n, x % u64Mod = x := by
    intro x hx
    rw [List.mem_range'_1] at hx
    exact Nat.mod_eq_of_lt (by omega)
  rw [List.map_congr_left hcong, List.map_id']

set_option maxRecDepth 8000 in
/-- Claim C1 fails as stated: a pipeline run sends a transcription chunk
whose `device_type` is `Microphone`, and `DeviceType` has no `Mixed`
variant at all (`Microphone` and `System` are its only values), so no
chunk ever carries `device_type = Mixed`. -/
theorem claim_C1_counterexample :
    (runPipeline envProbe cfgProbe 1 [micChunkProbe]
        ⟨false, (), 0⟩).trans.map AudioChunk.device_type =
      [DeviceType.Microphone] ∧
    ∀ d : DeviceType, d = DeviceType.Microphone ∨ d = DeviceType.System := by
  refine ⟨rfl, ?_⟩
  intro d
  cases d
  · exact Or.inl rfl
  · exact Or.inr rfl

/-- Claim C1 (amended): every chunk the pipeline task sends to the
transcription sink has `sample_rate = 16000` and
`device_type = Microphone` (the code's label for mixed audio — the
`DeviceType` enum has no `Mixed` variant), and the `chunk_id`s of the
chunks sent to that sink are exactly `0, 1, 2, …` in order — strictly
increasing — provided the run sends at most `2 ^ 64` of them (the `u64`
counter wraps beyond that). -/
theorem claim_C1_amended (env : PipelineEnv S T M V) (cfg : PipelineConfig)
    (fuel : Nat) (chunks : List (AudioChunk S T)) (m0 : M) (v0 : V)
    (hlen : (runPipeline env cfg fuel chunks
        ⟨m0, v0, 0⟩).trans.length ≤ u64Mod) :
    (∀ ch ∈ (runPipeline env cfg fuel chunks ⟨m0, v0, 0⟩).trans,
      ch.sample_rate = 16000 ∧ ch.device_type = DeviceType.Microphone) ∧
    (runPipeline env cfg fuel chunks ⟨m0, v0, 0⟩).trans.map
        AudioChunk.chunk_id =
      List.range' 0
        (runPipeline env cfg fuel chunks ⟨m0, v0, 0⟩).trans.length := by
  obtain ⟨ha, hb, _, _, _⟩ :=
    runPipeline_spec env cfg fuel chunks ⟨m0, v0, 0⟩ u64Mod_pos
  refine ⟨fun ch hch => ⟨(ha ch hch).1, (ha ch hch).2.1⟩, ?_⟩
  rw [hb]
  exact range'_mod_eq _ hlen

set_option maxRecDepth 8000 in
/-- Witness for the amended claim C1 on a closed pipeline run. -/
theorem claim_C1_witness :
    (runPipeline envProbe cfgProbe 1 [micChunkProbe]
        ⟨false, (), 0⟩).trans.length ≤ u64Mod ∧
    ((∀ ch ∈ (runPipeline envProbe cfgProbe 1 [micChunkProbe]
        ⟨false, (), 0⟩).trans,
      ch.sample_rate = 16000 ∧ ch.device_type = DeviceType.Microphone) ∧
    (runPipeline envProbe cfgProbe 1 [micChunkProbe]
        ⟨false, (), 0⟩).trans.map AudioChunk.chunk_id =
      List.range' 0
        (runPipeline envProbe cfgProbe 1 [micChunkProbe]
          ⟨false, (), 0⟩).trans.length) :=
  ⟨by decide,
    claim_C1_amended envProbe cfgProbe 1 [micChunkProbe] false ()
      (by decide)⟩

/-- Claim C2: in every pipeline run that sends at most `2 ^ 64 - 11`
transcription chunks (every realizable run), no chunk forwarded to the
transcription or recording sink has a `chunk_id` in the reserved sentinel
range `[u64::MAX - 9, u64::MAX]`; and processing a received sentinel chunk
only flushes the VAD processor — it leaves the mixer untouched, sends
nothing to the recording sink, and sends exactly the flushed VAD segments
to the transcription sink. -/
theorem claim_C2 (env : PipelineEnv S T M V) (cfg : PipelineConfig)
    (fuel : Nat) (chunks : List (AudioChunk S T)) (m0 : M) (v0 : V)
    (hlen : (runPipeline env cfg fuel chunks
        ⟨m0, v0, 0⟩).trans.length ≤ u64Mod - 11) :
    (∀ ch ∈ (runPipeline env cfg fuel chunks ⟨m0, v0, 0⟩).trans,
      ch.chunk_id < u64Mod - 10) ∧
    (∀ ch ∈ (runPipeline env cfg fuel chunks ⟨m0, v0, 0⟩).recd,
      ch.chunk_id < u64Mod - 10) ∧
    (∀ (st : PipelineState M V) (sentinel : AudioChunk S T),
      u64Mod - 10 ≤ sentinel.chunk_id →
      (stepChunk env cfg fuel st sentinel).recd = [] ∧
      (stepChunk env cfg fuel st sentinel).state.mixer = st.mixer ∧
      (stepChunk env cfg fuel st sentinel).trans =
        (flushRemainingAudio env st.vad st.chunk_id_counter).1 ∧
      (stepChunk env cfg fuel st sentinel).state.vad =
        (flushRemainingAudio env st.vad st.chunk_id_counter).2.1 ∧
      (stepChunk env cfg fuel st sentinel).state.chunk_id_counter =
        (flushRemainingAudio env st.vad st.chunk_id_counter).2.2) := by
  obtain ⟨_, hb, _, _, he⟩ :=
    runPipeline_spec env cfg fuel chunks ⟨m0, v0, 0⟩ u64Mod_pos
  have hc0 : (⟨m0, v0, 0⟩ : PipelineState M V).chunk_id_counter = 0 := rfl
  have hM11 : 11 ≤ u64Mod := by norm_num [u64Mod]
  refine ⟨?_, ?_, ?_⟩
  · intro ch hch
    have hmem : ch.chunk_id ∈ (runPipeline env cfg fuel chunks
        ⟨m0, v0, 0⟩).trans.map AudioChunk.chunk_id :=
      List.mem_map_of_mem _ hch
    rw [hb] at hmem
    obtain ⟨x, hx, hxe⟩ := List.mem_map.mp hmem
    rw [List.mem_range'_1, hc0] at hx
    rw [← hxe, Nat.mod_eq_of_lt (by omega)]
    omega
  · intro ch hch
    obtain ⟨k, hk1, hk2, _, _⟩ := he ch hch
    rw [hc0] at hk2
    have hkm : (0 + k) % u64Mod = k := by
      rw [Nat.zero_add]
      exact Nat.mod_eq_of_lt (by omega)
    rw [hk2, hkm]
    omega
  · intro st sentinel hsent
    have hsent' : u64Mod - 11 ≤ sentinel.chunk_id := by omega
    rw [stepChunk]
    simp [hsent']

set_option maxRecDepth 8000 in
/-- Witness for claim C2 on a closed pipeline run. -/
theorem claim_C2_witness :
    (runPipeline envProbe cfgProbe 1 [micChunkProbe]
        ⟨false, (), 0⟩).trans.length ≤ u64Mod - 11 ∧
    ((∀ ch ∈ (runPipeline envProbe cfgProbe 1 [micChunkProbe]
        ⟨false, (), 0⟩).trans, ch.chunk_id < u64Mod - 10) ∧
    (∀ ch ∈ (runPipeline envProbe cfgProbe 1 [micChunkProbe]
        ⟨false, (), 0⟩).recd, ch.chunk_id < u64Mod - 10) ∧
    (∀ (st : PipelineState Bool Unit) (sentinel : AudioChunk Unit Unit),
      u64Mod - 10 ≤ sentinel.chunk_id →
      (stepChunk envProbe cfgProbe 1 st sentinel).recd = [] ∧
      (stepChunk envProbe cfgProbe 1 st sentinel).state.mixer = st.mixer ∧
      (stepChunk envProbe cfgProbe 1 st sentinel).trans =
        (flushRemainingAudio envProbe st.vad st.chunk_id_counter).1 ∧
      (stepChunk envProbe cfgProbe 1 st sentinel).state.vad =
        (flushRemainingAudio envProbe st.vad st.chunk_id_counter).2.1 ∧
      (stepChunk envProbe cfgProbe 1 st sentinel).state.chunk_id_counter =
        (flushRemainingAudio envProbe st.vad st.chunk_id_counter).2.2)) :=
  ⟨by decide,
    claim_C2 envProbe cfgProbe 1 [micChunkProbe] false () (by decide)⟩

theorem drainResampler_blocks (env : CaptureEnv S R H N U) :
    ∀ (d : Nat) (buf : List S) (r : R) (acc : List S)
      (blocks : List (List S)), buf.length ≤ d →
      (∀ b ∈ blocks, b.length = 512) →
      ∀ b ∈ (drainResampler env r buf acc blocks).blocks, b.length = 512 := by
  intro d
  induction d with
  | zero =>
    intro buf r acc blocks hd hblocks
    have h512 : ¬ 512 ≤ buf.length := by omega
    rw [drainResampler, dif_neg h512]
    exact hblocks
  | succ d ih =>
    intro buf r acc blocks hd hblocks
    by_cases h512 : 512 ≤ buf.length
    · rw [drainResampler, dif_pos h512]
      have hbl : ∀ b ∈ blocks ++ [buf.take 512], b.length = 512 := by
        intro b hb
        rcases List.mem_append.mp hb with h | h
        · exact hblocks b h
        · simp only [List.mem_singleton] at h
          rw [h, List.length_take]
          omega
      have hlen : (buf.drop 512).length ≤ d := by
        simp only [List.length_drop]
        omega
      rcases hp : env.resampleProcess r (buf.take 512) with ⟨out?, r'⟩
      cases out? with
      | some out => exact ih (buf.drop 512) r' (acc ++ out) _ hlen hbl
      | none => exact hbl
    · rw [drainResampler, dif_neg h512]
      exact hblocks

/-- Claim C5: when resampling is required and the persistent resampler is
available, a callback whose samples leave the accumulated buffer under 512
samples emits nothing — no chunk goes to the recording saver or the
pipeline, the counter does not advance, and every sample sits in the
buffer for the next callback; moreover, in every case, every block handed
to the persistent resampler has exactly 512 samples. -/
theorem claim_C5 (env : CaptureEnv S R H N U) (cfg : CaptureConfig)
    (st : CaptureState S R H N U T) (data : List S) (r : R)
    (hrec : st.is_recording = true)
    (hres : cfg.needs_resampling = true)
    (hr : st.resampler = some r)
    (hsmall : st.resampler_input_buffer.length +
      (if 1 < cfg.channels then env.audioToMono data cfg.channels
        else data).length < 512) :
    process_audio_data env cfg st data =
      (⟨none, none⟩,
        { st with resampler_input_buffer := st.resampler_input_buffer ++
            (if 1 < cfg.channels then env.audioToMono data cfg.channels
              else data) }) ∧
    (∀ (rr : Option R) (buf mono : List S),
      ∀ b ∈ (processResampling env cfg rr buf mono).blocks,
        b.length = 512) := by
  constructor
  · have hnotoff : ¬ st.is_recording = false := by
      rw [hrec]
      simp
    rw [process_audio_data, if_neg hnotoff]
    simp only [hres, if_true]
    have hd : drainResampler env r (st.resampler_input_buffer ++
        (if 1 < cfg.channels then env.audioToMono data cfg.channels
          else data)) [] [] =
        ⟨[], st.resampler_input_buffer ++
          (if 1 < cfg.channels then env.audioToMono data cfg.channels
            else data), r, true, []⟩ := by
      rw [drainResampler, dif_neg (by
        simp only [List.length_append]
        omega)]
    rw [hr]
    simp only [processResampling, hd]
    simp only [List.isEmpty_nil, Bool.true_eq_false, if_false]
  · intro rr buf mono
    cases rr with
    | none => simp [processResampling]
    | some r0 =>
      have hmain := drainResampler_blocks env (buf ++ mono).length
        (buf ++ mono) r0 [] [] le_rfl (by simp)
      simp only [processResampling]
      split
      · exact hmain
      · split
        · exact hmain
        · exact hmain

/-- Witness for claim C5 at concrete inputs. -/
theorem claim_C5_witness :
    (stCapProbe.is_recording = true ∧ cfgCapProbe.needs_resampling = true ∧
      stCapProbe.resampler = some () ∧
      stCapProbe.resampler_input_buffer.length +
        (if 1 < cfgCapProbe.channels then
          envCapProbe.audioToMono [3, 4, 5] cfgCapProbe.channels
        else [3, 4, 5]).length < 512) ∧
    (process_audio_data envCapProbe cfgCapProbe stCapProbe [3, 4, 5] =
      (⟨none, none⟩,
        { stCapProbe with
          resampler_input_buffer := stCapProbe.resampler_input_buffer ++
            (if 1 < cfgCapProbe.channels then
              envCapProbe.audioToMono [3, 4, 5] cfgCapProbe.channels
            else [3, 4, 5]) }) ∧
    (∀ (rr : Option Unit) (buf mono : List Nat),
      ∀ b ∈ (processResampling envCapProbe cfgCapProbe rr buf mono).blocks,
        b.length = 512)) :=
  ⟨⟨by decide, by decide, by decide, by decide⟩,
    claim_C5 envCapProbe cfgCapProbe stCapProbe [3, 4, 5] ()
      (by decide) (by decide) (by decide) (by decide)⟩

/-- Claim C10: when the recording flag is already false at callback time,
`process_audio_data` returns immediately — nothing is sent to the
recording saver or the pipeline and the whole capture state (buffer,
counter, kernels) is unchanged. -/
theorem claim_C10 (env : CaptureEnv S R H N U) (cfg : CaptureConfig)
    (st : CaptureState S R H N U T) (data : List S)
    (h : st.is_recording = false) :
    process_audio_data env cfg st data = (⟨none, none⟩, st) := by
  rw [process_audio_data, if_pos h]

/-- Witness for claim C10 at concrete inputs. -/
theorem claim_C10_witness :
    ((⟨false, [1, 2], 0, some (), none, none, none, ()⟩ :
        CaptureState Nat Unit Unit Unit Unit Unit).is_recording = false) ∧
    process_audio_data envCapProbe cfgCapProbe
        ⟨false, [1, 2], 0, some (), none, none, none, ()⟩ [7] =
      (⟨none, none⟩, ⟨false, [1, 2], 0, some (), none, none, none, ()⟩) :=
  ⟨rfl, claim_C10 envCapProbe cfgCapProbe _ [7] rfl⟩

end MeetingMinutes
